import Mathlib

/-!
Verification of the `masker` Go library (surendratiwari3/masker).

The development shallowly embeds the library's core:
* Go strings as byte lists (`GoStr`); every built-in masking strategy is
  transcribed from the `init` block of masker.go.
* the strategy catalog (`Registry`) with Go-map overwrite semantics,
* the recursive `maskValue` traversal over reflect values, with Go's
  addressability (`CanSet`) made explicit,
* a heap-based variant making `reflect`'s pointer mutation explicit, used
  to analyse `MaskCopy`'s shallow-copy sharing.

Fallible Go code (panics, e.g. out-of-range string slicing, or calling a
nil function value) is modelled with `Option`: `none` means the call
panicked.
-/

namespace Masker

/-- A Go string: a finite sequence of bytes (each `Char` stands for one
byte; Go `len`, indexing and slicing are byte-based). -/
abbrev GoStr := List Char

/-- Conversion from a Lean string literal to a `GoStr` (ASCII contents
throughout this development, so chars and bytes coincide). -/
def gs (s : String) : GoStr := s.data

/-- Go `s[:n]`: panics (`none`) when `n > len(s)`. -/
def goSliceTo (s : GoStr) (n : Nat) : Option GoStr :=
  if n ≤ s.length then some (s.take n) else none

/-- Go `strings.Split(s, sep)` for a one-byte separator.
`splitOnChar c [] = [[]]`, matching Go's `Split("", sep) = [""]`. -/
def splitOnChar (c : Char) : GoStr → List GoStr
  | [] => [[]]
  | x :: xs =>
    if x = c then [] :: splitOnChar c xs
    else
      match splitOnChar c xs with
      | [] => [[x]]
      | g :: gs => (x :: g) :: gs

/-! ## Built-in strategies (masker.go, `init`) -/

/-- `maskRegistry["partial"]`. -/
def partialGo (s : GoStr) : GoStr :=
  if s.length > 4 then
    s.take 2 ++ List.replicate (s.length - 4) '*' ++ s.drop (s.length - 2)
  else List.replicate s.length '*'

/-- `maskRegistry["full"]`. -/
def fullGo (s : GoStr) : GoStr := List.replicate s.length '*'

/-- `maskRegistry["email"]`: splits on `@`; with exactly two parts it
slices `parts[0][:1]`, which panics (`none`) when the local part is
empty. -/
def emailGo (s : GoStr) : Option GoStr :=
  match splitOnChar '@' s with
  | [localPart, domain] =>
    (goSliceTo localPart 1).map fun c1 =>
      c1 ++ List.replicate (localPart.length - 1) '*' ++ '@' :: domain
  | _ => some (List.replicate s.length '*')

/-- `maskRegistry["phone"]`. -/
def phoneGo (s : GoStr) : GoStr :=
  if s.length > 4 then
    List.replicate (s.length - 4) '*' ++ s.drop (s.length - 4)
  else List.replicate s.length '*'

/-- `maskRegistry["creditcard"]` (textually identical body to phone). -/
def creditcardGo (s : GoStr) : GoStr :=
  if s.length > 4 then
    List.replicate (s.length - 4) '*' ++ s.drop (s.length - 4)
  else List.replicate s.length '*'

/-- `maskRegistry["dob"]`. -/
def dobGo (s : GoStr) : GoStr :=
  if s.length = 10 then gs "****-**-" ++ s.drop (s.length - 2)
  else List.replicate s.length '*'

/-- `maskRegistry["password"]`. -/
def passwordGo (s : GoStr) : GoStr := List.replicate s.length '*'

/-- `maskRegistry["token"]`. -/
def tokenGo (s : GoStr) : GoStr := List.replicate s.length '*'

/-! ## Strategy catalog -/

/-- `MaskFunc`: a strategy. `none` output means the Go call panicked. -/
abbrev MaskF := GoStr → Option GoStr

/-- The global registry, modelled as an association list; insertion
prepends, lookup takes the most recent binding, giving Go-map
last-write-wins overwrite semantics. -/
abbrev Registry := List (GoStr × MaskF)

/-- `RegisterMaskFunc`: installs or overwrites the mapping for `name`. -/
def RegisterMaskFunc (name : GoStr) (fn : MaskF) (reg : Registry) : Registry :=
  (name, fn) :: reg

/-- Registry lookup (`maskRegistry[name]` with the `, ok` form): the
most recent binding for `name`, if any. -/
def resolve : Registry → GoStr → Option MaskF
  | [], _ => none
  | (k, f) :: rest, name => if k = name then some f else resolve rest name

/-- Reading a missing key of a Go map of functions yields the zero value
`nil`; calling a nil function panics, i.e. is `fun _ => none`. -/
def lookupOrNil (reg : Registry) (name : GoStr) : MaskF :=
  match resolve reg name with
  | some f => f
  | none => fun _ => none

/-- The registry produced by masker.go's `init`: the eight base
strategies, then the group aliases — each alias is bound to the *value*
currently stored for the underlying name (`maskRegistry["PII"] =
maskRegistry["partial"]`), then `none`. -/
def initRegistry : Registry :=
  let r : Registry := []
  let r := RegisterMaskFunc (gs "partial") (fun s => some (partialGo s)) r
  let r := RegisterMaskFunc (gs "full") (fun s => some (fullGo s)) r
  let r := RegisterMaskFunc (gs "email") emailGo r
  let r := RegisterMaskFunc (gs "phone") (fun s => some (phoneGo s)) r
  let r := RegisterMaskFunc (gs "creditcard") (fun s => some (creditcardGo s)) r
  let r := RegisterMaskFunc (gs "dob") (fun s => some (dobGo s)) r
  let r := RegisterMaskFunc (gs "password") (fun s => some (passwordGo s)) r
  let r := RegisterMaskFunc (gs "token") (fun s => some (tokenGo s)) r
  let r := RegisterMaskFunc (gs "PII") (lookupOrNil r (gs "partial")) r
  let r := RegisterMaskFunc (gs "PHI") (lookupOrNil r (gs "dob")) r
  let r := RegisterMaskFunc (gs "PCI") (lookupOrNil r (gs "creditcard")) r
  let r := RegisterMaskFunc (gs "CREDENTIALS") (lookupOrNil r (gs "full")) r
  let r := RegisterMaskFunc (gs "FINANCIAL") (lookupOrNil r (gs "partial")) r
  let r := RegisterMaskFunc (gs "GDPR") (lookupOrNil r (gs "full")) r
  RegisterMaskFunc (gs "none") (fun s => some s) r

/-! ## Tag processing (the inner loop of `maskValue`'s tag section) -/

/-- The literal `"strategy:"` (9 bytes). -/
def stratHead : GoStr := gs "strategy:"

/-- The body of the tag loop: for each `;`-separated part carrying the
`strategy:` head, look the name up and, when registered, replace the
current string by the strategy's output (Go re-reads the field between
iterations, so applications chain). A `none` from a strategy is a panic
and aborts everything. -/
def applyTagParts (reg : Registry) : List GoStr → GoStr → Option GoStr
  | [], s => some s
  | p :: ps, s =>
    if stratHead.isPrefixOf p then
      match resolve reg (p.drop stratHead.length) with
      | some fn => (fn s).bind (applyTagParts reg ps)
      | none => applyTagParts reg ps s
    else applyTagParts reg ps s

/-! ## Value graphs

A `reflect.Value` graph, restricted to the kinds `maskValue` switches
on: strings, other scalars (represented by `vint`), pointers (`vnil` is
a nil pointer), structs (fields are `(name, tag, exported, value)`;
`CanSet` is exportedness ∧ addressability), slices, arrays, and maps
with string keys.  Go addressability is carried as an explicit flag
during traversal:
* `reflect.ValueOf` yields a non-addressable value;
* dereferencing a pointer always yields an addressable value;
* struct fields inherit the struct's addressability;
* slice elements are always addressable (the slice header points into a
  backing array), array elements inherit, map values (`MapIndex`) are
  never addressable.
With that flag, the functional result of the traversal agrees with the
observable effect of Go's in-place mutation for acyclic, unaliased
graphs: exactly the addressable parts (and parts behind pointers or
slice headers) change. -/
inductive Val : Type where
  | vstr (s : GoStr)
  | vint (n : Int)
  | vnil
  | vptr (v : Val)
  | vstruct (fs : List (GoStr × GoStr × Bool × Val))
  | vslice (xs : List Val)
  | varr (xs : List Val)
  | vmap (es : List (GoStr × Val))

/-- `MaskOverrides`: field name → strategy name (`"none"` = skip).
`Mask` passes Go `nil`, modelled by `[]` (lookup fails either way). -/
abbrev MaskOverrides := List (GoStr × GoStr)

/-- Override lookup (`overrides[fieldName]` with the `, ok` form; the
`overrides != nil` guard is subsumed: lookup in `[]` fails). -/
def lookupOv : MaskOverrides → GoStr → Option GoStr
  | [], _ => none
  | (k, s) :: rest, name => if k = name then some s else lookupOv rest name

mutual

/-- `maskValue(rv, overrides)`, with `addr` the addressability of `rv`.
A pointer is dereferenced once (becoming addressable) and the switch
runs on the target; if the target is itself a pointer or the value is a
nil pointer, no switch case matches and the value is left alone.
Strings and other scalars are untouched leaves. -/
def maskValue (reg : Registry) (ov : MaskOverrides) : Val → Bool → Option Val
  | .vptr (.vptr y), _ => some (.vptr (.vptr y))
  | .vptr x, _ => (maskValue reg ov x true).map .vptr
  | .vstruct fs, addr => (maskFlds reg ov fs addr).map .vstruct
  | .vslice xs, _ => (maskVals reg ov xs true).map .vslice
  | .varr xs, addr => (maskVals reg ov xs addr).map .varr
  | .vmap es, _ => (maskEntries reg ov es).map .vmap
  | v, _ => some v

/-- The field loop of the `reflect.Struct` case: a field whose `CanSet`
is false (`¬(addr ∧ exported)`) is skipped untouched; otherwise the
per-field override/tag logic runs. -/
def maskFlds (reg : Registry) (ov : MaskOverrides) :
    List (GoStr × GoStr × Bool × Val) → Bool →
    Option (List (GoStr × GoStr × Bool × Val))
  | [], _ => some []
  | (name, tag, ex, v) :: rest, addr =>
    if addr && ex then
      (maskFld reg ov name tag v).bind fun v' =>
        (maskFlds reg ov rest addr).map ((name, tag, ex, v') :: ·)
    else
      (maskFlds reg ov rest addr).map ((name, tag, ex, v) :: ·)

/-- The runtime-override section of the field loop: an entry for the
field's exact name is consulted first; `"none"` skips the field; a
registered strategy applied to a string field replaces it and stops.
In every other case — entry naming an unregistered strategy, or a
non-string field — control falls through to the tag section. -/
def maskFld (reg : Registry) (ov : MaskOverrides) (name tag : GoStr) (v : Val) :
    Option Val :=
  match lookupOv ov name with
  | some strat =>
    if strat = gs "none" then some v
    else
      match resolve reg strat with
      | some fn =>
        match v with
        | .vstr s => (fn s).map .vstr
        | v => maskFldTag reg ov tag v
      | none => maskFldTag reg ov tag v
  | none => maskFldTag reg ov tag v

/-- The tag-based-default section of the field loop: a non-empty tag on
a string field runs the tag loop; anything else recurses into the field
(which is addressable, since `CanSet` held). -/
def maskFldTag (reg : Registry) (ov : MaskOverrides) (tag : GoStr) (v : Val) :
    Option Val :=
  if tag ≠ [] then
    match v with
    | .vstr s => (applyTagParts reg (splitOnChar ';' tag) s).map .vstr
    | v => maskValue reg ov v true
  else maskValue reg ov v true

/-- The slice/array element loop (`rv.Index(i)`). -/
def maskVals (reg : Registry) (ov : MaskOverrides) : List Val → Bool → Option (List Val)
  | [], _ => some []
  | x :: xs, addr =>
    (maskValue reg ov x addr).bind fun x' =>
      (maskVals reg ov xs addr).map (x' :: ·)

/-- The map loop: each entry's value is visited (`rv.MapIndex(key)` is
never addressable; Go keeps the map itself unchanged, and mutation
reaches only parts behind pointers or slice headers — exactly the parts
the `addr := false` traversal lets change). -/
def maskEntries (reg : Registry) (ov : MaskOverrides) :
    List (GoStr × Val) → Option (List (GoStr × Val))
  | [] => some []
  | (k, v) :: rest =>
    (maskValue reg ov v false).bind fun v' =>
      (maskEntries reg ov rest).map ((k, v') :: ·)

end

/-- `Mask(v)`: tag-based masking, no overrides (`reflect.ValueOf` gives
a non-addressable value, so a non-pointer top-level input is a no-op).
The registry is a parameter standing for the package-global
`maskRegistry`. -/
def Mask (reg : Registry) (v : Val) : Option Val :=
  maskValue reg [] v false

/-- `MaskWithOverrides(v, overrides)`. -/
def MaskWithOverrides (reg : Registry) (v : Val) (ov : MaskOverrides) : Option Val :=
  maskValue reg ov v false

/-! ## Context-scoped variant (spec-modelled) -/

/-- Modelled from the spec: `MaskWithContext` is absent from `src/`
(only the README usage example shows it).  Per spec §3/§6, the ambient
context carries a mask policy `{overrides, disableMasking}` and must
round-trip it unchanged. -/
structure MaskContext where
  maskOverrides : MaskOverrides
  disableMasking : Bool

/-- Modelled from the spec (§4.3): the engine invoked with an explicit
policy; priority 1: a set disable flag makes the entire call a no-op
(recursion does not begin), otherwise the override set is used at
priority 2 as in `MaskWithOverrides`. -/
def maskWithPolicy (reg : Registry) (v : Val) (ov : MaskOverrides)
    (disable : Bool) : Option Val :=
  if disable then some v else MaskWithOverrides reg v ov

/-- Modelled from the spec (§4.3, §6): `MaskWithContext` reads
`{overrides, disableMasking}` from the carrier and must produce results
identical to passing the same values explicitly. -/
def MaskWithContext (reg : Registry) (v : Val) (ctx : MaskContext) : Option Val :=
  maskWithPolicy reg v ctx.maskOverrides ctx.disableMasking

/-! ## Projections (used to state counterexamples) -/

/-- The value of the first field named `name` of a struct value. -/
def getFld (name : GoStr) : Val → Option Val
  | .vstruct fs =>
    match fs.find? (fun f => f.1 = name) with
    | some f => some f.2.2.2
    | none => none
  | _ => none

/-- The value under the first map entry with key `k`. -/
def getEntry (k : GoStr) : Val → Option Val
  | .vmap es =>
    match es.find? (fun e => e.1 = k) with
    | some e => some e.2
    | none => none
  | _ => none

/-! ## Spec-side statements of the built-in rules (§4.1 table)

These follow the table's words — "first 2 chars", "last 4 chars", "all
characters replaced by `*`" — rather than the code's slicing, and are
compared with the transcribed strategies. -/

/-- "all characters replaced by `*`, same length". -/
def allStars (s : GoStr) : GoStr := s.map fun _ => '*'

/-- "last `n` chars" of a string. -/
def lastChars (n : Nat) (s : GoStr) : GoStr := (s.reverse.take n).reverse

/-- `partial` per the table: if `n > 4`: first 2 chars + `*`×(n-4) +
last 2 chars; else all `*`. -/
def partialSpec (s : GoStr) : GoStr :=
  if s.length > 4 then s.take 2 ++ List.replicate (s.length - 4) '*' ++ lastChars 2 s
  else allStars s

/-- `phone`/`creditcard` per the table: if `n > 4`: `*`×(n-4) + last 4
chars; else all `*`. -/
def phoneSpec (s : GoStr) : GoStr :=
  if s.length > 4 then List.replicate (s.length - 4) '*' ++ lastChars 4 s
  else allStars s

/-- `dob` per the table: if `n == 10`: `"****-**-"` + last 2 chars; else
all `*`. -/
def dobSpec (s : GoStr) : GoStr :=
  if s.length = 10 then gs "****-**-" ++ lastChars 2 s else allStars s

/-! ## Spec-side statement of tag-segment composition (C10) -/

/-- The registered transforms named by the `strategy:` segments of a
part list, in order. -/
def taggedFns (reg : Registry) : List GoStr → List MaskF
  | [] => []
  | p :: ps =>
    if stratHead.isPrefixOf p then
      match resolve reg (p.drop stratHead.length) with
      | some fn => fn :: taggedFns reg ps
      | none => taggedFns reg ps
    else taggedFns reg ps

/-- Left-to-right composition of a list of strategies (strategies may
panic, hence the bind). -/
def composeFns : List MaskF → GoStr → Option GoStr
  | [], s => some s
  | f :: fs, s => (f s).bind (composeFns fs)

/-! ## Heap model for `MaskCopy`

`MaskCopy` shallow-copies the pointee and masks the copy; whether the
*original* changes depends on pointer sharing, which the tree model
cannot express.  `HVal`/`maskValueH` transcribe the same Go functions
over an explicit heap: `hptr a` holds an address, dereferencing reads
the heap, and masking through a pointer writes the masked value back to
its cell.  The fragment `MaskCopy`'s contract is about — records,
pointers, strings, other scalars — is covered; recursion is bounded by
explicit fuel (the traversal of an acyclic graph consumes finitely
much; Go diverges on cycles, which the spec leaves undefined). -/
inductive HVal : Type where
  | hstr (s : GoStr)
  | hint (n : Int)
  | hnil
  | hptr (a : Nat)
  | hstruct (fs : List (GoStr × GoStr × Bool × HVal))

/-- The string content of field `name` of a struct value (used to state
that a cell changed). -/
def hFldStr (name : GoStr) : HVal → Option GoStr
  | .hstruct fs =>
    match fs.find? (fun f => f.1 = name) with
    | some f =>
      match f.2.2.2 with
      | .hstr s => some s
      | _ => none
    | none => none
  | _ => none

/-- The heap: cell `a` is `h[a]`; fresh allocation appends. -/
abbrev Heap := List HVal

/-- Read a cell (addresses in scope are always valid). -/
def heapGet (h : Heap) (a : Nat) : HVal := h.getD a .hnil

/-- Write a cell. -/
def heapSet (h : Heap) (a : Nat) (v : HVal) : Heap := h.set a v

mutual

/-- `maskValue` over the explicit heap; `none` is a panic or exhausted
fuel.  A pointer is dereferenced once: its cell is masked (addressable)
and written back; a cell holding another pointer or a nil pointer
matches no switch case. -/
def maskValueH (reg : Registry) (ov : MaskOverrides) :
    Nat → Heap → HVal → Bool → Option (Heap × HVal)
  | 0, _, _, _ => none
  | fuel + 1, h, .hptr a, _ =>
    (maskSwitchH reg ov fuel h (heapGet h a) true).map fun r =>
      (heapSet r.1 a r.2, .hptr a)
  | fuel + 1, h, v, addr => maskSwitchH reg ov fuel h v addr

/-- The kind switch (structs only; every other kind in this fragment is
a leaf). -/
def maskSwitchH (reg : Registry) (ov : MaskOverrides) :
    Nat → Heap → HVal → Bool → Option (Heap × HVal)
  | 0, _, _, _ => none
  | fuel + 1, h, .hstruct fs, addr =>
    (maskFldsH reg ov fuel h fs addr).map fun r => (r.1, .hstruct r.2)
  | _ + 1, h, v, _ => some (h, v)

/-- The field loop, threading the heap. -/
def maskFldsH (reg : Registry) (ov : MaskOverrides) :
    Nat → Heap → List (GoStr × GoStr × Bool × HVal) → Bool →
    Option (Heap × List (GoStr × GoStr × Bool × HVal))
  | 0, _, _, _ => none
  | _ + 1, h, [], _ => some (h, [])
  | fuel + 1, h, (name, tag, ex, v) :: rest, addr =>
    if addr && ex then
      (maskFldH reg ov fuel h name tag v).bind fun r =>
        (maskFldsH reg ov fuel r.1 rest addr).map fun r' =>
          (r'.1, (name, tag, ex, r.2) :: r'.2)
    else
      (maskFldsH reg ov fuel h rest addr).map fun r' =>
        (r'.1, (name, tag, ex, v) :: r'.2)

/-- The override section of the field loop (heap variant). -/
def maskFldH (reg : Registry) (ov : MaskOverrides) :
    Nat → Heap → GoStr → GoStr → HVal → Option (Heap × HVal)
  | 0, _, _, _, _ => none
  | fuel + 1, h, name, tag, v =>
    match lookupOv ov name with
    | some strat =>
      if strat = gs "none" then some (h, v)
      else
        match resolve reg strat with
        | some fn =>
          match v with
          | .hstr s => (fn s).map fun s' => (h, .hstr s')
          | v => maskFldTagH reg ov fuel h tag v
        | none => maskFldTagH reg ov fuel h tag v
    | none => maskFldTagH reg ov fuel h tag v

/-- The tag section of the field loop (heap variant). -/
def maskFldTagH (reg : Registry) (ov : MaskOverrides) :
    Nat → Heap → GoStr → HVal → Option (Heap × HVal)
  | 0, _, _, _ => none
  | fuel + 1, h, tag, v =>
    if tag ≠ [] then
      match v with
      | .hstr s => (applyTagParts reg (splitOnChar ';' tag) s).map fun s' => (h, .hstr s')
      | v => maskValueH reg ov fuel h v true
    else maskValueH reg ov fuel h v true

end

/-- `MaskCopy(v, overrides)`: a non-pointer or nil input is returned
unchanged with no copy; otherwise a fresh cell is allocated, the
pointee is shallow-copied into it (`copyVal.Elem().Set(rv.Elem())` —
one cell, nested pointers still point at the shared cells), the copy is
masked through its pointer, and the pointer to the copy is returned. -/
def MaskCopyH (reg : Registry) (ov : MaskOverrides) (fuel : Nat)
    (h : Heap) (v : HVal) : Option (Heap × HVal) :=
  match v with
  | .hptr a =>
    (maskValueH reg ov fuel (h ++ [heapGet h a]) (.hptr h.length) false).map fun r =>
      (r.1, .hptr h.length)
  | v => some (h, v)

/-- A field whose value is a string or plain scalar (no reference
through which masking the copy could reach shared data). -/
def flatFld : HVal → Bool
  | .hstr _ => true
  | .hint _ => true
  | _ => false

/-- A record all of whose fields are flat. -/
def flatRecord : HVal → Bool
  | .hstruct fs => fs.all fun f => flatFld f.2.2.2
  | _ => false

/-!
# Theorems

Helper lemmas first, then one theorem per claim (C1–C10), with
counterexamples and witnesses where required.
-/

/-- "last n chars" is dropping all but the last `n`. -/
theorem lastChars_eq_drop (n : Nat) (s : GoStr) :
    lastChars n s = s.drop (s.length - n) := by
  rw [lastChars, ← List.rtake_eq_reverse_take_reverse, List.rtake]

/-- "all characters replaced" is a replicate of the length. -/
theorem allStars_eq_replicate (s : GoStr) :
    allStars s = List.replicate s.length '*' := by
  rw [allStars, List.map_const']

/-- Every field of a non-addressable struct fails `CanSet` and is
skipped untouched (no recursion into it either). -/
theorem maskFlds_skip_unaddressable (reg : Registry) (ov : MaskOverrides)
    (fs : List (GoStr × GoStr × Bool × Val)) :
    maskFlds reg ov fs false = some fs := by
  induction fs with
  | nil => rw [maskFlds]
  | cons f rest ih =>
    obtain ⟨name, tag, ex, v⟩ := f
    rw [maskFlds]
    simp [ih]

/-- The tag loop applies exactly the registered strategies named by
`strategy:` segments, in order. -/
theorem applyTagParts_eq_composeFns (reg : Registry) (parts : List GoStr) (s : GoStr) :
    applyTagParts reg parts s = composeFns (taggedFns reg parts) s := by
  induction parts generalizing s with
  | nil => rw [applyTagParts, taggedFns]; rfl
  | cons p ps ih =>
    rw [applyTagParts, taggedFns]
    cases hp : stratHead.isPrefixOf p with
    | false => simp only [hp, Bool.false_eq_true, if_false]; exact ih s
    | true =>
      simp only [hp, if_true]
      cases hres : resolve reg (p.drop stratHead.length) with
      | none => exact ih s
      | some fn =>
        rw [composeFns]
        exact Option.bind_congr fun a _ => ih a

/-- Reading the freshly allocated cell. -/
theorem heapGet_append_len (h : Heap) (x : HVal) : heapGet (h ++ [x]) h.length = x := by
  simp [heapGet]

/-- Writing the freshly allocated cell does not change older cells. -/
theorem heapGet_set_append (h : Heap) (x y : HVal) (a : Nat) (ha : a < h.length) :
    heapGet ((h ++ [x]).set h.length y) a = heapGet h a := by
  simp only [heapGet, List.getD_eq_getElem?_getD]
  rw [List.getElem?_set_ne (by omega), List.getElem?_append_left ha]

/-- The heap switch is the identity on string/scalar leaves. -/
theorem maskSwitchH_leaf (reg : Registry) (ov : MaskOverrides) (fuel : Nat)
    (h : Heap) (v : HVal) (addr : Bool) (hv : flatFld v = true) :
    maskSwitchH reg ov fuel h v addr = none
    ∨ maskSwitchH reg ov fuel h v addr = some (h, v) := by
  cases fuel with
  | zero => left; rw [maskSwitchH]
  | succ f => right; cases v <;> simp_all [maskSwitchH, flatFld]

/-- Heap masking is the identity on string/scalar leaves. -/
theorem maskValueH_flat (reg : Registry) (ov : MaskOverrides) (fuel : Nat)
    (h : Heap) (v : HVal) (addr : Bool) (hv : flatFld v = true) :
    maskValueH reg ov fuel h v addr = none
    ∨ maskValueH reg ov fuel h v addr = some (h, v) := by
  cases fuel with
  | zero => left; rw [maskValueH]
  | succ f =>
    have : maskValueH reg ov (f + 1) h v addr = maskSwitchH reg ov f h v addr := by
      cases v <;> simp_all [maskValueH, flatFld]
    rw [this]
    exact maskSwitchH_leaf reg ov f h v addr hv

/-- The tag section leaves the heap unchanged on a flat field. -/
theorem maskFldTagH_flat (reg : Registry) (ov : MaskOverrides) (fuel : Nat)
    (h : Heap) (tag : GoStr) (v : HVal) (r : Heap × HVal) (hv : flatFld v = true)
    (hm : maskFldTagH reg ov fuel h tag v = some r) : r.1 = h := by
  cases fuel with
  | zero => rw [maskFldTagH] at hm; exact absurd hm (by simp)
  | succ f =>
    cases v with
    | hstr s =>
      rw [maskFldTagH] at hm
      split at hm
      · rcases Option.map_eq_some'.mp hm with ⟨s', hs', heq⟩
        rw [← heq]
      · rcases maskValueH_flat reg ov f h (.hstr s) true rfl with h0 | h0 <;>
          rw [h0] at hm
        · exact absurd hm (by simp)
        · cases hm; rfl
    | hint n =>
      simp only [maskFldTagH] at hm
      split at hm <;>
        (rcases maskValueH_flat reg ov f h (.hint n) true rfl with h0 | h0 <;>
          rw [h0] at hm)
      · exact absurd hm (by simp)
      · cases hm; rfl
      · exact absurd hm (by simp)
      · cases hm; rfl
    | hnil => simp [flatFld] at hv
    | hptr a => simp [flatFld] at hv
    | hstruct fs => simp [flatFld] at hv

/-- Processing a flat field leaves the heap unchanged. -/
theorem maskFldH_flat (reg : Registry) (ov : MaskOverrides) (fuel : Nat)
    (h : Heap) (name tag : GoStr) (v : HVal) (r : Heap × HVal)
    (hv : flatFld v = true)
    (hm : maskFldH reg ov fuel h name tag v = some r) : r.1 = h := by
  cases fuel with
  | zero => rw [maskFldH] at hm; exact absurd hm (by simp)
  | succ f =>
    cases hlk : lookupOv ov name with
    | none =>
      simp only [maskFldH, hlk] at hm
      exact maskFldTagH_flat reg ov f h tag v r hv hm
    | some strat =>
      simp only [maskFldH, hlk] at hm
      by_cases hn : strat = gs "none"
      · rw [if_pos hn] at hm; cases hm; rfl
      · rw [if_neg hn] at hm
        cases hres : resolve reg strat with
        | none => rw [hres] at hm; exact maskFldTagH_flat reg ov f h tag v r hv hm
        | some fn =>
          rw [hres] at hm
          cases v with
            | hstr s =>
              rcases Option.map_eq_some'.mp hm with ⟨s', hs', heq⟩
              rw [← heq]
            | hint n => exact maskFldTagH_flat reg ov f h tag _ r hv hm
            | hnil => simp [flatFld] at hv
            | hptr a => simp [flatFld] at hv
            | hstruct fs => simp [flatFld] at hv

/-- The field loop leaves the heap unchanged on a flat record. -/
theorem maskFldsH_flat (reg : Registry) (ov : MaskOverrides)
    (fs : List (GoStr × GoStr × Bool × HVal)) :
    ∀ (fuel : Nat) (h : Heap) (addr : Bool)
      (r : Heap × List (GoStr × GoStr × Bool × HVal)),
    (fs.all fun f => flatFld f.2.2.2) = true →
    maskFldsH reg ov fuel h fs addr = some r → r.1 = h := by
  induction fs with
  | nil =>
    intro fuel h addr r _ hm
    cases fuel with
    | zero => rw [maskFldsH] at hm; exact absurd hm (by simp)
    | succ f => rw [maskFldsH] at hm; cases hm; rfl
  | cons f rest ih =>
    intro fuel h addr r hflat hm
    obtain ⟨name, tag, ex, v⟩ := f
    simp only [List.all_cons, Bool.and_eq_true] at hflat
    cases fuel with
    | zero => rw [maskFldsH] at hm; exact absurd hm (by simp)
    | succ fl =>
      rw [maskFldsH] at hm
      split at hm
      · rcases Option.bind_eq_some.mp hm with ⟨r1, hr1, hrest⟩
        rcases Option.map_eq_some'.mp hrest with ⟨r2, hr2, heq⟩
        have e1 : r1.1 = h := maskFldH_flat reg ov fl h name tag v r1 hflat.1 hr1
        have e2 : r2.1 = r1.1 := ih fl r1.1 addr r2 hflat.2 hr2
        rw [← heq]
        simp [e1, e2]
      · rcases Option.map_eq_some'.mp hm with ⟨r2, hr2, heq⟩
        have e2 : r2.1 = h := ih fl h addr r2 hflat.2 hr2
        rw [← heq]
        simp [e2]

/-! ## Claim theorems -/

/-- C1 (counterexample): an override entry naming the unregistered
strategy `"bogus"` does not leave the field unmodified: the declared
tag `strategy:full` is still consulted and applied, changing `"ab"` to
`"**"`. -/
theorem C1_counterexample :
    maskValue initRegistry [(gs "F", gs "bogus")]
      (.vstruct [(gs "F", gs "strategy:full", true, .vstr (gs "ab"))]) true
      = some (.vstruct [(gs "F", gs "strategy:full", true, .vstr (gs "**"))])
    ∧ gs "**" ≠ gs "ab" := by
  refine ⟨?_, by decide⟩
  simp [maskValue, maskFlds, maskFld, maskFldTag, lookupOv, resolve, applyTagParts,
        splitOnChar, stratHead, initRegistry, RegisterMaskFunc, gs, fullGo, lookupOrNil]

/-- C1 (amended): when the override set maps the field's name to a
strategy that is neither `"none"` nor registered, processing does not
stop: it falls through to the tag-based default section (so the
declared tag is consulted; the field stays unmodified only if the tag
yields no registered strategy either). -/
theorem C1_override_unregistered_falls_through (reg : Registry) (ov : MaskOverrides)
    (name tag : GoStr) (v : Val) (strat : GoStr)
    (hlook : lookupOv ov name = some strat)
    (hnone : strat ≠ gs "none")
    (hres : resolve reg strat = none) :
    maskFld reg ov name tag v = maskFldTag reg ov tag v := by
  rw [maskFld.eq_def, hlook]
  simp only [if_neg hnone, hres]

theorem C1_override_unregistered_falls_through_witness :
    lookupOv [(gs "F", gs "bogus")] (gs "F") = some (gs "bogus")
    ∧ resolve initRegistry (gs "bogus") = none
    ∧ maskFld initRegistry [(gs "F", gs "bogus")] (gs "F") (gs "strategy:full")
        (.vstr (gs "ab"))
      = maskFldTag initRegistry [(gs "F", gs "bogus")] (gs "strategy:full")
        (.vstr (gs "ab")) :=
  ⟨rfl, rfl,
    C1_override_unregistered_falls_through initRegistry [(gs "F", gs "bogus")]
      (gs "F") (gs "strategy:full") (.vstr (gs "ab")) (gs "bogus") rfl
      (by decide) rfl⟩

/-- C2 (counterexample): the override entry `Secret ↦ full` reaches the
field `Secret` of a *nested* struct: with the entry the nested field
becomes `"**"`, without it the value graph is untouched — so the entry
does not affect only the top-level field of the passed value. -/
theorem C2_counterexample :
    maskValue initRegistry [(gs "Secret", gs "full")]
      (.vstruct [(gs "Inner", [], true,
        .vstruct [(gs "Secret", [], true, .vstr (gs "ab"))])]) true
      = some (.vstruct [(gs "Inner", [], true,
          .vstruct [(gs "Secret", [], true, .vstr (gs "**"))])])
    ∧ maskValue initRegistry []
        (.vstruct [(gs "Inner", [], true,
          .vstruct [(gs "Secret", [], true, .vstr (gs "ab"))])]) true
      = some (.vstruct [(gs "Inner", [], true,
          .vstruct [(gs "Secret", [], true, .vstr (gs "ab"))])])
    ∧ gs "**" ≠ gs "ab" := by
  refine ⟨?_, ?_, by decide⟩ <;>
    simp [maskValue, maskFlds, maskFld, maskFldTag, lookupOv, resolve, applyTagParts,
          splitOnChar, stratHead, initRegistry, RegisterMaskFunc, gs, fullGo, lookupOrNil]

/-- C2 (amended): the override set is passed unchanged into the
recursion, so it is consulted at every struct level: a struct field
with no applicable override or tag is recursed into with the *same*
override set, and its inner fields are resolved against it exactly as
top-level fields are. -/
theorem C2_overrides_reach_nested_fields (reg : Registry) (ov : MaskOverrides)
    (oname : GoStr) (inner : Val)
    (hlook : lookupOv ov oname = none) :
    maskValue reg ov (.vstruct [(oname, [], true, inner)]) true
      = (maskValue reg ov inner true).map
          (fun x => .vstruct [(oname, [], true, x)]) := by
  rw [maskValue, maskFlds, maskFld.eq_def, hlook, maskFldTag.eq_def]
  simp only [ne_eq, not_true_eq_false, if_false, Bool.and_self, if_true]
  cases maskValue reg ov inner true <;> simp [maskFlds]

theorem C2_overrides_reach_nested_fields_witness :
    maskValue initRegistry [(gs "Secret", gs "full")]
      (.vstruct [(gs "Inner", [], true, .vstr (gs "ab"))]) true
      = (maskValue initRegistry [(gs "Secret", gs "full")] (.vstr (gs "ab")) true).map
          (fun x => .vstruct [(gs "Inner", [], true, x)]) :=
  C2_overrides_reach_nested_fields initRegistry [(gs "Secret", gs "full")]
    (gs "Inner") (.vstr (gs "ab")) rfl

/-- C3 (counterexample): a struct stored *directly* as a map value is
not masked (its fields fail `CanSet`), while the same struct as a
directly held field of an addressable struct has its tagged field
masked to `"**"` — so masking a struct map value is not the same as
masking a directly held struct field. -/
theorem C3_counterexample :
    maskValue initRegistry []
      (.vmap [(gs "k",
        .vstruct [(gs "Secret", gs "strategy:full", true, .vstr (gs "ab"))])]) true
      = some (.vmap [(gs "k",
          .vstruct [(gs "Secret", gs "strategy:full", true, .vstr (gs "ab"))])])
    ∧ maskValue initRegistry []
        (.vstruct [(gs "Item", [], true,
          .vstruct [(gs "Secret", gs "strategy:full", true, .vstr (gs "ab"))])]) true
      = some (.vstruct [(gs "Item", [], true,
          .vstruct [(gs "Secret", gs "strategy:full", true, .vstr (gs "**"))])])
    ∧ gs "**" ≠ gs "ab" := by
  refine ⟨?_, ?_, by decide⟩ <;>
    simp [maskValue, maskFlds, maskFld, maskFldTag, maskEntries, lookupOv, resolve,
          applyTagParts, splitOnChar, stratHead, initRegistry, RegisterMaskFunc, gs,
          fullGo, lookupOrNil]

/-- C3 (amended): masking visits every slice element (addressable, same
policy, masked exactly like a directly held value) and every map value
(with the same policy); but a struct reached as a non-addressable
value — for example stored directly as a map value — has every field
skipped and is left unmodified. -/
theorem C3_collection_traversal :
    (∀ (reg : Registry) (ov : MaskOverrides) fs,
      maskValue reg ov (.vstruct fs) false = some (.vstruct fs))
    ∧ (∀ (reg : Registry) (ov : MaskOverrides) (k : GoStr) (v : Val) es,
      maskEntries reg ov ((k, v) :: es)
        = (maskValue reg ov v false).bind fun v' =>
            (maskEntries reg ov es).map ((k, v') :: ·))
    ∧ (∀ (reg : Registry) (ov : MaskOverrides) (xs : List Val) (addr : Bool),
      maskValue reg ov (.vslice xs) addr = (maskVals reg ov xs true).map .vslice)
    ∧ (∀ (reg : Registry) (ov : MaskOverrides) (x : Val) (xs : List Val),
      maskVals reg ov (x :: xs) true
        = (maskValue reg ov x true).bind fun x' =>
            (maskVals reg ov xs true).map (x' :: ·)) := by
  refine ⟨?_, ?_, ?_, ?_⟩
  · intro reg ov fs
    rw [maskValue, maskFlds_skip_unaddressable]; rfl
  · intro reg ov k v es; rw [maskEntries]
  · intro reg ov xs addr; rw [maskValue]
  · intro reg ov x xs; rw [maskVals]

/-- C4: the `email` strategy is not total: on any input whose local
part (before the first `@`) is empty and whose split has exactly two
parts, `parts[0][:1]` slices an empty string out of range and panics;
the other failure-free behaviors hold (empty input maps to empty). -/
theorem C4_email_panics :
    emailGo (gs "@example.com") = none
    ∧ emailGo (gs "") = some (gs "")
    ∧ emailGo (gs "john.doe@example.com") = some (gs "j*******@example.com") :=
  ⟨by decide, by decide, by decide⟩

/-- C5: with the disable flag set in the context carrier, the whole
call is a no-op — the value (overridden fields included) is returned
unchanged — and the result is identical to invoking the engine with the
same policy passed explicitly. -/
theorem C5_disable_flag_noop (reg : Registry) (v : Val) (ctx : MaskContext)
    (h : ctx.disableMasking = true) :
    MaskWithContext reg v ctx = some v
    ∧ MaskWithContext reg v ctx = maskWithPolicy reg v ctx.maskOverrides true := by
  constructor
  · rw [MaskWithContext, h, maskWithPolicy]; rfl
  · rw [MaskWithContext, h]

theorem C5_disable_flag_noop_witness :
    (MaskContext.mk [(gs "Email", gs "none")] true).disableMasking = true
    ∧ MaskWithContext initRegistry (.vstr (gs "x"))
        (MaskContext.mk [(gs "Email", gs "none")] true) = some (.vstr (gs "x")) :=
  ⟨rfl, (C5_disable_flag_noop initRegistry (.vstr (gs "x"))
      (MaskContext.mk [(gs "Email", gs "none")] true) rfl).1⟩

/-- C6 (counterexample): `MaskCopy` on a record holding a pointer field
mutates data reachable from the original: cell 0 is shared between the
original (cell 1) and its shallow copy (cell 2); masking the copy
rewrites cell 0's tagged `Secret` field from `"ab"` to `"**"`. -/
theorem C6_counterexample :
    MaskCopyH initRegistry [] 10
      [.hstruct [(gs "Secret", gs "strategy:full", true, .hstr (gs "ab"))],
       .hstruct [(gs "P", [], true, .hptr 0)]]
      (.hptr 1)
    = some ([.hstruct [(gs "Secret", gs "strategy:full", true, .hstr (gs "**"))],
             .hstruct [(gs "P", [], true, .hptr 0)],
             .hstruct [(gs "P", [], true, .hptr 0)]],
            .hptr 2)
    ∧ hFldStr (gs "Secret")
        (heapGet [HVal.hstruct [(gs "Secret", gs "strategy:full", true, .hstr (gs "ab"))],
                  HVal.hstruct [(gs "P", [], true, .hptr 0)]] 0)
      = some (gs "ab")
    ∧ hFldStr (gs "Secret")
        (heapGet [HVal.hstruct [(gs "Secret", gs "strategy:full", true, .hstr (gs "**"))],
                  HVal.hstruct [(gs "P", [], true, .hptr 0)],
                  HVal.hstruct [(gs "P", [], true, .hptr 0)]] 0)
      = some (gs "**")
    ∧ gs "**" ≠ gs "ab" := by
  refine ⟨?_, by simp [hFldStr, heapGet], by simp [hFldStr, heapGet], by decide⟩
  simp [MaskCopyH, maskValueH, maskSwitchH, maskFldsH, maskFldH, maskFldTagH,
        heapGet, heapSet, lookupOv, resolve, applyTagParts, splitOnChar, stratHead,
        initRegistry, RegisterMaskFunc, gs, fullGo, lookupOrNil]

/-- C6 (amended): a non-pointer or nil input is returned unchanged with
no copy; and for a pointer to a record all of whose fields are strings
or plain scalars (no reference-typed fields), the original's cell is
bit-for-bit unchanged after `MaskCopy` and the result points at the
fresh copy.  (Data behind reference-typed fields is shared with the
shallow copy and may be mutated — see the counterexample.) -/
theorem C6_maskcopy_frame :
    (∀ (reg : Registry) (ov : MaskOverrides) (fuel : Nat) (h : Heap) (v : HVal),
      (∀ a, v ≠ .hptr a) → MaskCopyH reg ov fuel h v = some (h, v))
    ∧ (∀ (reg : Registry) (ov : MaskOverrides) (fuel : Nat) (h : Heap) (a : Nat)
        (h' : Heap) (rv : HVal),
      flatRecord (heapGet h a) = true → a < h.length →
      MaskCopyH reg ov fuel h (.hptr a) = some (h', rv) →
      heapGet h' a = heapGet h a ∧ rv = .hptr h.length) := by
  constructor
  · intro reg ov fuel h v hne
    cases v with
    | hptr a => exact absurd rfl (hne a)
    | hstr s => rw [MaskCopyH]; exact fun b hb => hne b hb
    | hint n => rw [MaskCopyH]; exact fun b hb => hne b hb
    | hnil => rw [MaskCopyH]; exact fun b hb => hne b hb
    | hstruct fs => rw [MaskCopyH]; exact fun b hb => hne b hb
  · intro reg ov fuel h a h' rv hflat ha hm
    rw [MaskCopyH] at hm
    rcases Option.map_eq_some'.mp hm with ⟨r0, hr0, heq0⟩
    cases fuel with
    | zero => rw [maskValueH] at hr0; exact absurd hr0 (by simp)
    | succ f =>
      rw [maskValueH] at hr0
      rcases Option.map_eq_some'.mp hr0 with ⟨r1, hr1, heq1⟩
      rw [heapGet_append_len] at hr1
      cases hcell : heapGet h a with
      | hstruct fs =>
        rw [hcell] at hflat hr1
        cases f with
        | zero => rw [maskSwitchH] at hr1; exact absurd hr1 (by simp)
        | succ f2 =>
          rw [maskSwitchH] at hr1
          rcases Option.map_eq_some'.mp hr1 with ⟨r2, hr2, heq2⟩
          rw [flatRecord] at hflat
          have e2 : r2.1 = h ++ [HVal.hstruct fs] :=
            maskFldsH_flat reg ov fs f2 (h ++ [HVal.hstruct fs]) true r2 hflat hr2
          cases heq0
          subst heq1
          subst heq2
          constructor
          · rw [heapSet, e2]
            show heapGet ((h ++ [HVal.hstruct fs]).set h.length (HVal.hstruct r2.2)) a
              = HVal.hstruct fs
            rw [heapGet_set_append h (HVal.hstruct fs) (HVal.hstruct r2.2) a ha, hcell]
          · rfl
      | hstr s => rw [hcell] at hflat; simp [flatRecord] at hflat
      | hint n => rw [hcell] at hflat; simp [flatRecord] at hflat
      | hnil => rw [hcell] at hflat; simp [flatRecord] at hflat
      | hptr b => rw [hcell] at hflat; simp [flatRecord] at hflat

theorem C6_maskcopy_frame_witness :
    MaskCopyH initRegistry [] 5 [] (.hstr (gs "x")) = some ([], .hstr (gs "x"))
    ∧ heapGet
        [HVal.hstruct [(gs "Name", gs "strategy:full", true, .hstr (gs "ab"))],
         HVal.hstruct [(gs "Name", gs "strategy:full", true, .hstr (gs "**"))]] 0
      = heapGet [HVal.hstruct [(gs "Name", gs "strategy:full", true, .hstr (gs "ab"))]] 0 :=
  ⟨C6_maskcopy_frame.1 initRegistry [] 5 [] (.hstr (gs "x")) (fun b hb => nomatch hb),
    (C6_maskcopy_frame.2 initRegistry [] 5
      [HVal.hstruct [(gs "Name", gs "strategy:full", true, .hstr (gs "ab"))]] 0
      [HVal.hstruct [(gs "Name", gs "strategy:full", true, .hstr (gs "ab"))],
       HVal.hstruct [(gs "Name", gs "strategy:full", true, .hstr (gs "**"))]]
      (.hptr 1) (by rfl) (by decide)
      (by simp [MaskCopyH, maskValueH, maskSwitchH, maskFldsH, maskFldH, maskFldTagH,
            heapGet, heapSet, lookupOv, resolve, applyTagParts, splitOnChar, stratHead,
            initRegistry, RegisterMaskFunc, gs, fullGo, lookupOrNil])).1⟩

/-- C7: every built-in strategy computes exactly the rule of the spec's
table, stated in the table's own vocabulary ("first/last chars", "all
characters replaced"), and a length-4 input falls to the fully-masked
branch of `partial`/`phone`/`creditcard`. -/
theorem C7_builtin_strategies_match_table :
    (∀ s : GoStr, partialGo s = partialSpec s)
    ∧ (∀ s : GoStr, fullGo s = allStars s)
    ∧ (∀ s : GoStr, passwordGo s = allStars s)
    ∧ (∀ s : GoStr, tokenGo s = allStars s)
    ∧ (∀ s : GoStr, phoneGo s = phoneSpec s)
    ∧ (∀ s : GoStr, creditcardGo s = phoneSpec s)
    ∧ (∀ s : GoStr, dobGo s = dobSpec s)
    ∧ (∀ s : GoStr, (lookupOrNil initRegistry (gs "none")) s = some s)
    ∧ partialGo (gs "abcd") = gs "****"
    ∧ phoneGo (gs "abcd") = gs "****"
    ∧ creditcardGo (gs "abcd") = gs "****" := by
  refine ⟨?_, ?_, ?_, ?_, ?_, ?_, ?_, ?_, by decide, by decide, by decide⟩
  · intro s
    rw [partialGo, partialSpec, lastChars_eq_drop, allStars_eq_replicate]
  · intro s; rw [fullGo, allStars_eq_replicate]
  · intro s; rw [passwordGo, allStars_eq_replicate]
  · intro s; rw [tokenGo, allStars_eq_replicate]
  · intro s; rw [phoneGo, phoneSpec, lastChars_eq_drop, allStars_eq_replicate]
  · intro s; rw [creditcardGo, phoneSpec, lastChars_eq_drop, allStars_eq_replicate]
  · intro s; rw [dobGo, dobSpec, lastChars_eq_drop, allStars_eq_replicate]
  · intro s; rfl

/-- C8: each of the seven length-preserving strategies returns a string
of the input's length, for every input. -/
theorem C8_strategies_preserve_length (s : GoStr) :
    (partialGo s).length = s.length
    ∧ (phoneGo s).length = s.length
    ∧ (creditcardGo s).length = s.length
    ∧ (fullGo s).length = s.length
    ∧ (dobGo s).length = s.length
    ∧ (passwordGo s).length = s.length
    ∧ (tokenGo s).length = s.length := by
  refine ⟨?_, ?_, ?_, ?_, ?_, ?_, ?_⟩ <;>
    simp only [partialGo, phoneGo, creditcardGo, fullGo, dobGo, passwordGo, tokenGo] <;>
    (try split) <;>
    simp_all [List.length_append, List.length_take, List.length_drop,
      List.length_replicate, gs]
  all_goals omega

/-- C9: each group alias is bound at registration time to the value the
underlying strategy then had: after re-registering the underlying name
with any transform `g`, the alias still resolves to the original
transform (while the underlying name now resolves to `g`). -/
theorem C9_aliases_bound_by_value (g : MaskF) (s : GoStr) :
    (resolve (RegisterMaskFunc (gs "partial") g initRegistry) (gs "PII")).map (fun f => f s)
      = some (some (partialGo s))
    ∧ (resolve (RegisterMaskFunc (gs "dob") g initRegistry) (gs "PHI")).map (fun f => f s)
      = some (some (dobGo s))
    ∧ (resolve (RegisterMaskFunc (gs "creditcard") g initRegistry) (gs "PCI")).map (fun f => f s)
      = some (some (creditcardGo s))
    ∧ (resolve (RegisterMaskFunc (gs "full") g initRegistry) (gs "CREDENTIALS")).map (fun f => f s)
      = some (some (fullGo s))
    ∧ (resolve (RegisterMaskFunc (gs "partial") g initRegistry) (gs "FINANCIAL")).map (fun f => f s)
      = some (some (partialGo s))
    ∧ (resolve (RegisterMaskFunc (gs "full") g initRegistry) (gs "GDPR")).map (fun f => f s)
      = some (some (fullGo s))
    ∧ (resolve (RegisterMaskFunc (gs "partial") g initRegistry) (gs "partial")).map (fun f => f s)
      = some (g s) :=
  ⟨rfl, rfl, rfl, rfl, rfl, rfl, rfl⟩

/-- C10: all `strategy:` segments of a multi-segment tag are applied in
segment order — the tag loop equals the left-to-right composition of
the registered transforms the segments name (in general), and on a
concrete two-segment tag the field's final value is the composition,
not the first strategy alone. -/
theorem C10_tag_segments_compose :
    (∀ (reg : Registry) (parts : List GoStr) (s : GoStr),
      applyTagParts reg parts s = composeFns (taggedFns reg parts) s)
    ∧ (∀ s : GoStr,
      maskValue initRegistry []
        (.vstruct [(gs "F", gs "strategy:dob;strategy:partial", true, .vstr s)]) true
        = some (.vstruct [(gs "F", gs "strategy:dob;strategy:partial", true,
            .vstr (partialGo (dobGo s)))])) := by
  constructor
  · exact applyTagParts_eq_composeFns
  · intro s
    simp [maskValue, maskFlds, maskFld, maskFldTag, lookupOv, resolve, applyTagParts,
          splitOnChar, stratHead, initRegistry, RegisterMaskFunc, gs, lookupOrNil]

end Masker
